import Mathlib

/-!
Verification of the path-lock manager and handle lifecycle of the
go-winfsp repository (packages `pathlock` and `gofs`).

The Go code is shallowly embedded: the `sync.Map` of `PathLocker`
becomes a function `String → Option Nat` (path to counter-cell value),
`uintptr` counters become natural numbers reduced modulo `2 ^ 64`
exactly where the Go code can wrap, and the nonterminating
yield-and-retry loops of the Go source become an explicit `spin`
result (single-slot operations) or `Option`-valued fuel recursion
(hierarchical operations).  Operations that would panic in Go
(unlocking a path with no counter cell) return `none`.
-/

/-- Width of a Go `uintptr` on windows/amd64: counter cells wrap modulo this. -/
def uintptrMod : Nat := 2 ^ 64

/-! ### Go standard library path normalization

The `pathlock` package normalizes every path before it touches the
lock table, via `path.Clean`, `path.Join`, `path.Dir`,
`filepath.ToSlash`, `filepath.FromSlash` and `filepath.VolumeName`.
These Go standard library functions are modelled here following their
documented algorithms (they are external dependencies of the
repository, not part of its sources).
-/

/-- Split a string on slashes, as Go `strings.Split(p, "/")` does
(structurally recursive so that the kernel can evaluate it). -/
def splitOnSlashAux : List Char → List Char → List String
  | [], acc => [String.mk acc.reverse]
  | c :: cs, acc =>
    if c = '/' then String.mk acc.reverse :: splitOnSlashAux cs []
    else splitOnSlashAux cs (c :: acc)

/-- Split a string on slashes. -/
def splitOnSlash (p : String) : List String := splitOnSlashAux p.data []

/-- Join path elements with slashes, as Go `strings.Join(elems, "/")`. -/
def joinSlash : List String → String
  | [] => ""
  | [s] => s
  | s :: ss => s ++ "/" ++ joinSlash ss

/-- Whether the first character of a string is a slash. -/
def headIsSlash (p : String) : Bool :=
  match p.data with
  | [] => false
  | c :: _ => c = '/'

/-- One step of the element-stack form of Go `path.Clean`: empty and
"." elements are dropped, ".." pops a non-".." stack top (or is
dropped at the root when `rooted`), anything else is pushed. -/
def cleanStep (rooted : Bool) (st : List String) (e : String) : List String :=
  if e = "" || e = "." then st
  else if e = ".." then
    match st with
    | [] => if rooted then [] else [".."]
    | top :: rest => if top = ".." then e :: st else rest
  else e :: st

/-- Model of Go `path.Clean`. -/
def pathClean (p : String) : String :=
  if p = "" then "."
  else
    let rooted := headIsSlash p
    let st := (splitOnSlash p).foldl (cleanStep rooted) []
    match st with
    | [] => if rooted then "/" else "."
    | _ :: _ => (if rooted then "/" else "") ++ joinSlash st.reverse

/-- Model of `cleanSlashPath` from the pathlock package:
`path.Clean(path.Join("/", p))`, which equals `path.Clean("//" + p)`. -/
def cleanSlashPath (p : String) : String := pathClean ("//" ++ p)

/-- Model of Go `path.Dir`: clean the part of the path up to and
including the final slash (the empty string, hence ".", if none). -/
def dirPath (p : String) : String :=
  pathClean (String.mk ((p.data.reverse.dropWhile (fun c => c ≠ '/')).reverse))

/-- Model of Go `filepath.ToSlash` on windows. -/
def toSlashS (p : String) : String :=
  String.mk (p.data.map (fun c => if c = '\\' then '/' else c))

/-- Model of Go `filepath.FromSlash` on windows. -/
def fromSlashS (p : String) : String :=
  String.mk (p.data.map (fun c => if c = '/' then '\\' else c))

/-- Character at byte-model index `i` (paths are modelled as their rune
sequences). -/
def chAt (p : String) (i : Nat) : Option Char := p.data.get? i

/-- Windows path separator test, as in Go `filepath.isSlash`. -/
def isSlashChar (c : Char) : Bool := c = '\\' || c = '/'

/-- ASCII letter test used by Go `filepath.volumeNameLen` for drive letters. -/
def isAlphaChar (c : Char) : Bool :=
  ('a' ≤ c && c ≤ 'z') || ('A' ≤ c && c ≤ 'Z')

/-- Character-class test at an index, false when out of range. -/
def charAtIs (p : String) (i : Nat) (f : Char → Bool) : Bool :=
  match chAt p i with
  | none => false
  | some c => f c

/-- Scan forward to the next windows path separator, returning its
index (or the scan end); inner loop of Go `filepath.volumeNameLen`
for UNC paths. -/
def uncScanToSlash : Nat → String → Nat → Nat
  | 0, _, n => n
  | f + 1, p, n =>
    match chAt p n with
    | none => n
    | some c => if isSlashChar c then n else uncScanToSlash f p (n + 1)

/-- Outer UNC scanning loop of Go `filepath.volumeNameLen`: find the
share-name start after the host name and return the volume length,
or 0 when the path is not a valid UNC path. -/
def uncLoop : Nat → String → Nat → Nat
  | 0, _, _ => 0
  | f + 1, p, n =>
    if n < p.length - 1 then
      match chAt p n with
      | none => 0
      | some c =>
        if isSlashChar c then
          match chAt p (n + 1) with
          | none => 0
          | some c2 =>
            if isSlashChar c2 then 0
            else if c2 = '.' then 0
            else uncScanToSlash (p.length + 1) p (n + 1)
        else uncLoop f p (n + 1)
    else 0

/-- Model of Go `filepath.volumeNameLen` on windows: 2 for drive
letters, share length for UNC paths, otherwise 0. -/
def volumeNameLen (p : String) : Nat :=
  if p.length < 2 then 0
  else if charAtIs p 1 (fun c => c = ':') && charAtIs p 0 isAlphaChar then 2
  else if 5 ≤ p.length then
    if charAtIs p 0 isSlashChar && charAtIs p 1 isSlashChar &&
        charAtIs p 2 (fun c => !(isSlashChar c) && c != '.') then
      uncLoop p.length p 3
    else 0
  else 0

/-- Model of `cleanFilePath` from the pathlock package: strip the
volume name, convert to slashes, then `cleanSlashPath`. -/
def cleanFilePath (p : String) : String :=
  cleanSlashPath (toSlashS (String.mk (p.data.drop (volumeNameLen p))))

/-! ### The lock table and its single-slot operations -/

/-- The `sync.Map` of `PathLocker`, as a map from path to the value of
its counter cell. -/
abbrev Table := String → Option Nat

/-- Store a counter value for a path. -/
def tset (t : Table) (p : String) (c : Nat) : Table :=
  fun q => if q = p then some c else t q

/-- Delete the counter cell of a path. -/
def tdel (t : Table) (p : String) : Table :=
  fun q => if q = p then none else t q

/-- The empty lock table. -/
def emptyTable : Table := fun _ => none

/-- Every stored counter fits in a `uintptr`; true of every table the
Go program can represent. -/
def TableFits (t : Table) : Prop := ∀ p c, t p = some c → c < uintptrMod

/-- Result of a single-slot lock attempt: success with the new table,
failure (the Go function returns `false`, table untouched), or `spin`
for the yield-and-retry paths of the Go loops (counter value 1),
which never return in a sequential execution. -/
inductive LockRes where
  | ok (t : Table)
  | busy (t : Table)
  | spin

/-- Model of `PathLocker.readLock`: insert a fresh cell with value 2
when the path is absent; fail on 0 (writer present); spin on 1
(draining); otherwise increment with `uintptr` wraparound, failing
when the counter would wrap to 0. -/
def readLock (p : String) (t : Table) : LockRes :=
  match t p with
  | none => .ok (tset t p 2)
  | some c =>
    if c = 0 then .busy t
    else if c = 1 then .spin
    else if (c + 1) % uintptrMod = 0 then .busy t
    else .ok (tset t p ((c + 1) % uintptrMod))

/-- Model of `PathLocker.readUnlock`: decrement the counter (adding
`^uintptr(0)` wraps); when the result is 1 the cell is deleted and
recycled to the pool (the returned flag). Panics (`none`) when the
path has no cell. -/
def readUnlock (p : String) (t : Table) : Option (Table × Bool) :=
  match t p with
  | none => none
  | some c =>
    let dec := (c + (uintptrMod - 1)) % uintptrMod
    if dec = 1 then some (tdel t p, true) else some (tset t p dec, false)

/-- Model of `PathLocker.writeLock`: insert a fresh cell with value 0
when the path is absent; fail when a cell holds 0 or more than 1;
spin on 1 (draining). -/
def writeLock (p : String) (t : Table) : LockRes :=
  match t p with
  | none => .ok (tset t p 0)
  | some c => if c = 0 ∨ c > 1 then .busy t else .spin

/-- Model of `PathLocker.writeUnlock`: delete the cell outright and
recycle it. Panics (`none`) when the path has no cell. -/
def writeUnlock (p : String) (t : Table) : Option Table :=
  match t p with
  | none => none
  | some _ => some (tdel t p)

/-- Model of `PathLocker.writerDowngrade`: the writer rewrites its own
cell to the reader count 2 in place. -/
def writerDowngrade (p : String) (t : Table) : Option Table :=
  match t p with
  | none => none
  | some _ => some (tset t p 2)

/-- Root test used by the recursive locking operations of the pathlock
package. -/
def isRootPath (p : String) : Bool := p = "" || p = "." || p = "/"

/-! ### Hierarchical operations

The Go recursions on `path.Dir` are embedded with a fuel argument;
`none` means the model ran out of fuel or the Go code would panic or
spin forever. The public entry points supply ample fuel.
-/

/-- Model of `PathLocker.readUnlockRecursive`. -/
def readUnlockRecursiveF : Nat → String → Table → Option Table
  | 0, _, _ => none
  | fuel + 1, p, t =>
    if isRootPath p then some t
    else
      match readUnlock p t with
      | none => none
      | some (t1, _) => readUnlockRecursiveF fuel (dirPath p) t1

/-- Model of `PathLocker.readLockRecursive`: lock the parent chain
first, then the leaf; a leaf failure unwinds the ancestor chain. -/
def readLockRecursiveF : Nat → String → Table → Option (Bool × Table)
  | 0, _, _ => none
  | fuel + 1, p, t =>
    if isRootPath p then some (true, t)
    else
      match readLockRecursiveF fuel (dirPath p) t with
      | none => none
      | some (false, t1) => some (false, t1)
      | some (true, t1) =>
        match readLock p t1 with
        | .ok t2 => some (true, t2)
        | .busy t2 =>
          match readUnlockRecursiveF fuel (dirPath p) t2 with
          | none => none
          | some t3 => some (false, t3)
        | .spin => none

/-- The `Lock` reference object of the pathlock package: locked path,
writer flag, and whether its `sync.Once` release has fired. -/
structure Lok where
  path : String
  write : Bool
  freed : Bool
deriving DecidableEq, Repr

/-- Path of a lock converted to a windows file path, `Lock.FilePath`. -/
def lokFilePath (l : Lok) : String := fromSlashS l.path

/-- Model of `PathLocker.readLockCleanPath`: `some lock` on success,
`none` result component on failure. -/
def readLockCleanPathF (fuel : Nat) (p : String) (t : Table) :
    Option (Option Lok × Table) :=
  match readLockRecursiveF fuel p t with
  | none => none
  | some (true, t1) => some (some ⟨p, false, false⟩, t1)
  | some (false, t1) => some (none, t1)

/-- Model of `PathLocker.writeLockCleanPath`: the root is rejected
unconditionally; otherwise read-lock the parent chain, then
write-lock the leaf, unwinding the chain when the leaf fails. -/
def writeLockCleanPathF (fuel : Nat) (p : String) (t : Table) :
    Option (Option Lok × Table) :=
  if isRootPath p then some (none, t)
  else
    match readLockRecursiveF fuel (dirPath p) t with
    | none => none
    | some (false, t1) => some (none, t1)
    | some (true, t1) =>
      match writeLock p t1 with
      | .ok t2 => some (some ⟨p, true, false⟩, t2)
      | .busy t2 =>
        match readUnlockRecursiveF fuel (dirPath p) t2 with
        | none => none
        | some t3 => some (none, t3)
      | .spin => none

/-- Model of `Lock.Unlock`: a `sync.Once`-guarded release; a writer
lock releases its own slot then read-unlocks the parent chain, a
reader lock read-unlocks its own chain. -/
def unlockLok (fuel : Nat) (l : Lok) (t : Table) : Option (Lok × Table) :=
  if l.freed then some (l, t)
  else if l.write then
    match writeUnlock l.path t with
    | none => none
    | some t1 =>
      match readUnlockRecursiveF fuel (dirPath l.path) t1 with
      | none => none
      | some t2 => some (⟨l.path, l.write, true⟩, t2)
  else
    match readUnlockRecursiveF fuel l.path t with
    | none => none
    | some t1 => some (⟨l.path, l.write, true⟩, t1)

/-- Model of `Lock.Downgrade`: a no-op on reader locks; a writer lock
rewrites its slot to the reader count and clears its writer flag. -/
def downgradeLok (l : Lok) (t : Table) : Option (Lok × Table) :=
  if l.write then
    match writerDowngrade l.path t with
    | none => none
    | some t1 => some (⟨l.path, false, l.freed⟩, t1)
  else some (l, t)

/-- Fuel that is always sufficient for a cleaned path: the hierarchy
is at most one level per character. -/
def defaultFuel (p : String) : Nat := p.length + 1

/-- Model of `PathLocker.RLockPath` with explicit fuel. -/
def rlockPathF (fuel : Nat) (p : String) (t : Table) : Option (Option Lok × Table) :=
  readLockCleanPathF fuel (cleanSlashPath p) t

/-- Model of `PathLocker.LockPath` with explicit fuel. -/
def lockPathF (fuel : Nat) (p : String) (t : Table) : Option (Option Lok × Table) :=
  writeLockCleanPathF fuel (cleanSlashPath p) t

/-- Model of `PathLocker.RLockPath`. -/
def rlockPath (p : String) (t : Table) : Option (Option Lok × Table) :=
  rlockPathF (defaultFuel (cleanSlashPath p)) p t

/-- Model of `PathLocker.LockPath`. -/
def lockPath (p : String) (t : Table) : Option (Option Lok × Table) :=
  lockPathF (defaultFuel (cleanSlashPath p)) p t

/-- Model of `PathLocker.RLock` (windows file path flavour) with explicit fuel. -/
def rlockFileF (fuel : Nat) (p : String) (t : Table) : Option (Option Lok × Table) :=
  readLockCleanPathF fuel (cleanFilePath p) t

/-- Model of `PathLocker.Lock` (windows file path flavour) with explicit fuel. -/
def lockFileF (fuel : Nat) (p : String) (t : Table) : Option (Option Lok × Table) :=
  writeLockCleanPathF fuel (cleanFilePath p) t

example : cleanSlashPath "" = "/" := by decide
example : cleanSlashPath "." = "/" := by decide
example : cleanSlashPath "/" = "/" := by decide
example : cleanSlashPath "a/b/" = "/a/b" := by decide
example : cleanSlashPath "./a/b/c/../../c/" = "/a/c" := by decide
example : dirPath "/a/b/c" = "/a/b" := by decide
example : dirPath "/a" = "/" := by decide
example : cleanFilePath "C:\\x\\y" = "/x/y" := by decide

/-! ### Basic table lemmas -/

lemma uintptrMod_pos : 0 < uintptrMod := by norm_num [uintptrMod]

lemma uintptrMod_big : 2 < uintptrMod := by norm_num [uintptrMod]

lemma tset_self (t : Table) (p : String) (c : Nat) : tset t p c p = some c := by
  simp [tset]

lemma tset_other {q p : String} (h : q ≠ p) (t : Table) (c : Nat) :
    tset t p c q = t q := by
  simp [tset, h]

lemma tdel_self (t : Table) (p : String) : tdel t p p = none := by
  simp [tdel]

lemma tdel_other {q p : String} (h : q ≠ p) (t : Table) : tdel t p q = t q := by
  simp [tdel, h]

lemma tdel_tset (t : Table) (p : String) (c : Nat) :
    tdel (tset t p c) p = tdel t p := by
  funext q
  by_cases h : q = p <;> simp [tdel, tset, h]

lemma tdel_absent {t : Table} {p : String} (h : t p = none) : tdel t p = t := by
  funext q
  by_cases hq : q = p
  · subst hq; simp [tdel, h]
  · simp [tdel, hq]

lemma tset_lookup {t : Table} {p : String} {c : Nat} (h : t p = some c) :
    tset t p c = t := by
  funext q
  by_cases hq : q = p
  · subst hq; simp [tset, h]
  · simp [tset, hq]

lemma tset_tset_lookup {t : Table} {p : String} {c : Nat} (a : Nat)
    (h : t p = some c) : tset (tset t p a) p c = t := by
  funext q
  by_cases hq : q = p
  · subst hq; simp [tset, h]
  · simp [tset, hq]

lemma decWrap_eq {a : Nat} (h0 : 1 ≤ a) (h1 : a < uintptrMod) :
    (a + (uintptrMod - 1)) % uintptrMod = a - 1 := by
  have hM := uintptrMod_pos
  have h : a + (uintptrMod - 1) = (a - 1) + uintptrMod := by omega
  rw [h, Nat.add_mod_right, Nat.mod_eq_of_lt (by omega)]

/-! ### TableFits preservation -/

lemma fits_empty : TableFits emptyTable := by
  intro p c h
  simp [emptyTable] at h

lemma fits_tset {t : Table} (hW : TableFits t) {c : Nat} (hc : c < uintptrMod)
    (p : String) : TableFits (tset t p c) := by
  intro q d hq
  rcases eq_or_ne q p with rfl | h
  · rw [tset_self] at hq; cases hq; exact hc
  · rw [tset_other h] at hq; exact hW q d hq

lemma fits_tdel {t : Table} (hW : TableFits t) (p : String) :
    TableFits (tdel t p) := by
  intro q d hq
  rcases eq_or_ne q p with rfl | h
  · rw [tdel_self] at hq; cases hq
  · rw [tdel_other h] at hq; exact hW q d hq

lemma readLock_busy_inv {p : String} {t t' : Table}
    (h : readLock p t = .busy t') : t' = t := by
  unfold readLock at h
  cases ht : t p <;> rw [ht] at h
  · cases h
  · rename_i c
    by_cases hc0 : c = 0
    · simp [hc0] at h; exact h.symm
    · by_cases hc1 : c = 1
      · simp [hc0, hc1] at h
      · by_cases hov : (c + 1) % uintptrMod = 0 <;> simp [hc0, hc1, hov] at h
        exact h.symm

lemma readLock_ok_inv {p : String} {t t' : Table}
    (h : readLock p t = .ok t') :
    (t p = none ∧ t' = tset t p 2) ∨
      ∃ c, t p = some c ∧ 2 ≤ c ∧ (c + 1) % uintptrMod ≠ 0 ∧
        t' = tset t p ((c + 1) % uintptrMod) := by
  unfold readLock at h
  cases ht : t p <;> rw [ht] at h
  · left; cases h; exact ⟨rfl, rfl⟩
  · rename_i c
    by_cases hc0 : c = 0
    · simp [hc0] at h
    · by_cases hc1 : c = 1
      · simp [hc0, hc1] at h
      · by_cases hov : (c + 1) % uintptrMod = 0
        · simp [hc0, hc1, hov] at h
        · simp [hc0, hc1, hov] at h
          exact Or.inr ⟨c, rfl, by omega, hov, h.symm⟩

lemma fits_readLock {p : String} {t t' : Table} (hW : TableFits t)
    (h : readLock p t = .ok t') : TableFits t' := by
  rcases readLock_ok_inv h with ⟨_, rfl⟩ | ⟨c, _, _, _, rfl⟩
  · exact fits_tset hW uintptrMod_big p
  · exact fits_tset hW (Nat.mod_lt _ uintptrMod_pos) p

lemma fits_readUnlock {p : String} {t t' : Table} {b : Bool} (hW : TableFits t)
    (h : readUnlock p t = some (t', b)) : TableFits t' := by
  unfold readUnlock at h
  cases ht : t p <;> rw [ht] at h
  · cases h
  · rename_i c
    by_cases hd : (c + (uintptrMod - 1)) % uintptrMod = 1 <;> simp [hd] at h
    · exact h.1 ▸ fits_tdel hW p
    · exact h.1 ▸ fits_tset hW (Nat.mod_lt _ uintptrMod_pos) p

/-- Single-slot inverse: a successful read lock is undone exactly by a
read unlock. -/
lemma readLock_then_unlock {p : String} {t t' : Table} (hW : TableFits t)
    (h : readLock p t = .ok t') : ∃ b, readUnlock p t' = some (t, b) := by
  rcases readLock_ok_inv h with ⟨ht, rfl⟩ | ⟨c, ht, hc2, hov, rfl⟩
  · refine ⟨true, ?_⟩
    unfold readUnlock
    rw [tset_self]
    have hdec : (2 + (uintptrMod - 1)) % uintptrMod = 1 := by
      have := decWrap_eq (a := 2) (by omega) uintptrMod_big
      simpa using this
    simp only [hdec, if_pos rfl]
    rw [tdel_tset, tdel_absent ht]
    simp
  · refine ⟨false, ?_⟩
    have hcM : c < uintptrMod := hW p c ht
    have hlt : c + 1 < uintptrMod := by
      rcases Nat.lt_or_ge (c + 1) uintptrMod with h' | h'
      · exact h'
      · exfalso
        have he : c + 1 = uintptrMod := by omega
        rw [he, Nat.mod_self] at hov
        exact hov rfl
    have ha : (c + 1) % uintptrMod = c + 1 := Nat.mod_eq_of_lt hlt
    unfold readUnlock
    rw [ha, tset_self]
    have hdec : (c + 1 + (uintptrMod - 1)) % uintptrMod = c := by
      have := decWrap_eq (a := c + 1) (by omega) hlt
      simpa using this
    have hc1 : ¬(c = 1) := by omega
    simp only [hdec, if_neg (by omega : ¬(c = 1))]
    rw [tset_tset_lookup _ ht]

/-! ### Hierarchical lemmas: inversion, atomicity -/

lemma fits_rurF {fuel : Nat} : ∀ {p : String} {t t' : Table},
    readUnlockRecursiveF fuel p t = some t' → TableFits t → TableFits t' := by
  induction fuel with
  | zero => intro p t t' h hW; simp [readUnlockRecursiveF] at h
  | succ n ih =>
    intro p t t' h hW
    simp only [readUnlockRecursiveF] at h
    by_cases hr : isRootPath p = true
    · simp only [hr, if_true] at h
      cases h
      exact hW
    · simp only [hr, if_false, Bool.false_eq_true] at h
      cases hu : readUnlock p t with
      | none => rw [hu] at h; cases h
      | some pr =>
        obtain ⟨t1, b⟩ := pr
        rw [hu] at h
        exact ih h (fits_readUnlock hW hu)

lemma fits_rlrF {fuel : Nat} : ∀ {p : String} {t t' : Table} {b : Bool},
    readLockRecursiveF fuel p t = some (b, t') → TableFits t → TableFits t' := by
  induction fuel with
  | zero => intro p t t' b h hW; simp [readLockRecursiveF] at h
  | succ n ih =>
    intro p t t' b h hW
    simp only [readLockRecursiveF] at h
    by_cases hr : isRootPath p = true
    · simp only [hr, if_true] at h
      cases h
      exact hW
    · simp only [hr, if_false, Bool.false_eq_true] at h
      cases hp : readLockRecursiveF n (dirPath p) t with
      | none => rw [hp] at h; cases h
      | some pr =>
        obtain ⟨ok, t1⟩ := pr
        rw [hp] at h
        have hW1 : TableFits t1 := ih hp hW
        cases ok with
        | false => cases h; exact hW1
        | true =>
          simp only [] at h
          cases hl : readLock p t1 with
          | ok t2 =>
            rw [hl] at h
            cases h
            exact fits_readLock hW1 hl
          | busy t2 =>
            rw [hl] at h
            simp only [] at h
            cases hu : readUnlockRecursiveF n (dirPath p) t2 with
            | none => rw [hu] at h; cases h
            | some t3 =>
              rw [hu] at h
              cases h
              have : t2 = t1 := readLock_busy_inv hl
              subst this
              exact fits_rurF hu hW1
          | spin => rw [hl] at h; cases h

/-- Hierarchical inverse: a successful recursive read lock is undone
exactly by the recursive read unlock with the same fuel. -/
lemma rlrF_inverse {fuel : Nat} : ∀ {p : String} {t t' : Table},
    TableFits t → readLockRecursiveF fuel p t = some (true, t') →
    readUnlockRecursiveF fuel p t' = some t := by
  induction fuel with
  | zero => intro p t t' _ h; simp [readLockRecursiveF] at h
  | succ n ih =>
    intro p t t' hW h
    simp only [readLockRecursiveF] at h
    by_cases hr : isRootPath p = true
    · simp only [hr, if_true] at h
      cases h
      simp [readUnlockRecursiveF, hr]
    · simp only [hr, if_false, Bool.false_eq_true] at h
      cases hp : readLockRecursiveF n (dirPath p) t with
      | none => rw [hp] at h; cases h
      | some pr =>
        obtain ⟨ok, t1⟩ := pr
        rw [hp] at h
        cases ok with
        | false => cases h
        | true =>
          have hW1 : TableFits t1 := fits_rlrF hp hW
          simp only [] at h
          cases hl : readLock p t1 with
          | ok t2 =>
            rw [hl] at h
            cases h
            obtain ⟨b, hu⟩ := readLock_then_unlock hW1 hl
            simp only [readUnlockRecursiveF, hr, if_false, Bool.false_eq_true, hu]
            exact ih hW hp
          | busy t2 =>
            rw [hl] at h
            simp only [] at h
            cases hu : readUnlockRecursiveF n (dirPath p) t2 with
            | none => rw [hu] at h; cases h
            | some t3 => rw [hu] at h; cases h
          | spin => rw [hl] at h; cases h

/-- Failure atomicity of the recursive read lock: a `false` return
leaves the table exactly as it was. -/
lemma rlrF_fail {fuel : Nat} : ∀ {p : String} {t t' : Table},
    TableFits t → readLockRecursiveF fuel p t = some (false, t') → t' = t := by
  induction fuel with
  | zero => intro p t t' _ h; simp [readLockRecursiveF] at h
  | succ n ih =>
    intro p t t' hW h
    simp only [readLockRecursiveF] at h
    by_cases hr : isRootPath p = true
    · simp only [hr, if_true] at h
      cases h
    · simp only [hr, if_false, Bool.false_eq_true] at h
      cases hp : readLockRecursiveF n (dirPath p) t with
      | none => rw [hp] at h; cases h
      | some pr =>
        obtain ⟨ok, t1⟩ := pr
        rw [hp] at h
        cases ok with
        | false => cases h; exact ih hW hp
        | true =>
          simp only [] at h
          cases hl : readLock p t1 with
          | ok t2 => rw [hl] at h; cases h
          | busy t2 =>
            rw [hl] at h
            simp only [] at h
            cases hu : readUnlockRecursiveF n (dirPath p) t2 with
            | none => rw [hu] at h; cases h
            | some t3 =>
              rw [hu] at h
              cases h
              have ht2 : t2 = t1 := readLock_busy_inv hl
              subst ht2
              have := rlrF_inverse hW hp
              rw [this] at hu
              cases hu
              rfl
          | spin => rw [hl] at h; cases h

lemma writeLock_ok_inv {p : String} {t t' : Table}
    (h : writeLock p t = .ok t') : t p = none ∧ t' = tset t p 0 := by
  unfold writeLock at h
  cases ht : t p <;> rw [ht] at h
  · cases h; exact ⟨rfl, rfl⟩
  · rename_i c
    by_cases hc : c = 0 ∨ c > 1 <;> simp [hc] at h

lemma writeLock_busy_inv {p : String} {t t' : Table}
    (h : writeLock p t = .busy t') : t' = t := by
  unfold writeLock at h
  cases ht : t p <;> rw [ht] at h
  · cases h
  · rename_i c
    by_cases hc : c = 0 ∨ c > 1 <;> simp [hc] at h
    exact h.symm

lemma wlcpF_ok_inv {fuel : Nat} {p : String} {t t' : Table} {l : Lok}
    (h : writeLockCleanPathF fuel p t = some (some l, t')) :
    l = ⟨p, true, false⟩ ∧ isRootPath p = false ∧
      ∃ t1, readLockRecursiveF fuel (dirPath p) t = some (true, t1) ∧
        t1 p = none ∧ t' = tset t1 p 0 := by
  unfold writeLockCleanPathF at h
  by_cases hr : isRootPath p = true
  · simp [hr] at h
  · simp only [hr, if_false, Bool.false_eq_true] at h
    cases hp : readLockRecursiveF fuel (dirPath p) t with
    | none => rw [hp] at h; cases h
    | some pr =>
      obtain ⟨ok, t1⟩ := pr
      rw [hp] at h
      cases ok with
      | false => cases h
      | true =>
        simp only [] at h
        cases hl : writeLock p t1 with
        | ok t2 =>
          rw [hl] at h
          cases h
          obtain ⟨habs, rfl⟩ := writeLock_ok_inv hl
          exact ⟨rfl, by simpa using hr, t1, rfl, habs, rfl⟩
        | busy t2 =>
          rw [hl] at h
          simp only [] at h
          cases hu : readUnlockRecursiveF fuel (dirPath p) t2 with
          | none => rw [hu] at h; cases h
          | some t3 => rw [hu] at h; cases h
        | spin => rw [hl] at h; cases h

lemma rlcpF_ok_inv {fuel : Nat} {p : String} {t t' : Table} {l : Lok}
    (h : readLockCleanPathF fuel p t = some (some l, t')) :
    l = ⟨p, false, false⟩ ∧ readLockRecursiveF fuel p t = some (true, t') := by
  unfold readLockCleanPathF at h
  cases hp : readLockRecursiveF fuel p t with
  | none => rw [hp] at h; cases h
  | some pr =>
    obtain ⟨ok, t1⟩ := pr
    rw [hp] at h
    cases ok with
    | false => cases h
    | true => cases h; exact ⟨rfl, rfl⟩

lemma rlcpF_fail_inv {fuel : Nat} {p : String} {t t' : Table}
    (h : readLockCleanPathF fuel p t = some (none, t')) :
    readLockRecursiveF fuel p t = some (false, t') := by
  unfold readLockCleanPathF at h
  cases hp : readLockRecursiveF fuel p t with
  | none => rw [hp] at h; cases h
  | some pr =>
    obtain ⟨ok, t1⟩ := pr
    rw [hp] at h
    cases ok with
    | false => cases h; rfl
    | true => cases h

/-- Failure atomicity of `writeLockCleanPath`: a `nil` return leaves
the table exactly as it was. -/
lemma wlcpF_fail {fuel : Nat} {p : String} {t t' : Table} (hW : TableFits t)
    (h : writeLockCleanPathF fuel p t = some (none, t')) : t' = t := by
  unfold writeLockCleanPathF at h
  by_cases hr : isRootPath p = true
  · simp only [hr, if_true] at h
    cases h
    rfl
  · simp only [hr, if_false, Bool.false_eq_true] at h
    cases hp : readLockRecursiveF fuel (dirPath p) t with
    | none => rw [hp] at h; cases h
    | some pr =>
      obtain ⟨ok, t1⟩ := pr
      rw [hp] at h
      cases ok with
      | false => cases h; exact rlrF_fail hW hp
      | true =>
        simp only [] at h
        cases hl : writeLock p t1 with
        | ok t2 => rw [hl] at h; cases h
        | busy t2 =>
          rw [hl] at h
          simp only [] at h
          cases hu : readUnlockRecursiveF fuel (dirPath p) t2 with
          | none => rw [hu] at h; cases h
          | some t3 =>
            rw [hu] at h
            cases h
            have ht2 : t2 = t1 := writeLock_busy_inv hl
            subst ht2
            have := rlrF_inverse hW hp
            rw [this] at hu
            cases hu
            rfl
        | spin => rw [hl] at h; cases h

/-- Releasing a reader lock obtained by `readLockCleanPath` restores
the original table. -/
lemma unlock_after_read {fuel : Nat} {p : String} {t t1 : Table} {l : Lok}
    (hW : TableFits t) (h : readLockCleanPathF fuel p t = some (some l, t1)) :
    unlockLok fuel l t1 = some (⟨p, false, true⟩, t) := by
  obtain ⟨rfl, hlk⟩ := rlcpF_ok_inv h
  unfold unlockLok
  simp only [Bool.false_eq_true, if_false]
  rw [rlrF_inverse hW hlk]

/-- Releasing a writer lock obtained by `writeLockCleanPath` restores
the original table. -/
lemma unlock_after_write {fuel : Nat} {p : String} {t t1 : Table} {l : Lok}
    (hW : TableFits t) (h : writeLockCleanPathF fuel p t = some (some l, t1)) :
    unlockLok fuel l t1 = some (⟨p, true, true⟩, t) := by
  obtain ⟨rfl, hnr, ta, hpar, habs, rfl⟩ := wlcpF_ok_inv h
  unfold unlockLok
  simp only [Bool.false_eq_true, if_false, if_true]
  have hwu : writeUnlock p (tset ta p 0) = some ta := by
    unfold writeUnlock
    rw [tset_self, tdel_tset, tdel_absent habs]
  rw [hwu]
  simp only []
  rw [rlrF_inverse hW hpar]

/-- Downgrading then releasing a writer lock obtained by
`writeLockCleanPath` also restores the original table. -/
lemma downgrade_unlock_after_write {fuel : Nat} {p : String} {t t1 : Table}
    {l : Lok} (hW : TableFits t)
    (h : writeLockCleanPathF fuel p t = some (some l, t1)) :
    ∃ t2, downgradeLok l t1 = some (⟨p, false, false⟩, t2) ∧
      unlockLok (fuel + 1) ⟨p, false, false⟩ t2 = some (⟨p, false, true⟩, t) := by
  obtain ⟨rfl, hnr, ta, hpar, habs, rfl⟩ := wlcpF_ok_inv h
  have hdg : writerDowngrade p (tset ta p 0) = some (tset (tset ta p 0) p 2) := by
    unfold writerDowngrade
    rw [tset_self]
  refine ⟨tset (tset ta p 0) p 2, ?_, ?_⟩
  · unfold downgradeLok
    simp only [if_true, hdg]
  · unfold unlockLok
    simp only [Bool.false_eq_true, if_false]
    rw [readUnlockRecursiveF]
    simp only [hnr, if_false, Bool.false_eq_true]
    have hrl : readUnlock p (tset (tset ta p 0) p 2) = some (ta, true) := by
      unfold readUnlock
      rw [tset_self]
      have hdec : (2 + (uintptrMod - 1)) % uintptrMod = 1 := by
        have := decWrap_eq (a := 2) (by omega) uintptrMod_big
        simpa using this
      simp only [hdec, if_pos rfl]
      rw [tdel_tset, tdel_tset, tdel_absent habs]
      simp
    rw [hrl]
    simp only []
    rw [rlrF_inverse hW hpar]

/-! ### Ghost-token transition system for the mutual-exclusion claims

A `GState` pairs the lock table with ghost counts of outstanding
tokens per path: `sh p` readers and `ex p` writers currently holding
`p`.  `LockStep` is one `PathLocker` single-slot operation under the
package's usage contract (an unlock or downgrade requires an
outstanding token of the right kind, exactly what the Go doc comments
assume).
-/

structure GState where
  tab : Table
  sh : String → Nat
  ex : String → Nat

/-- Increment a per-path ghost count. -/
def bumpF (f : String → Nat) (p : String) : String → Nat :=
  fun q => if q = p then f q + 1 else f q

/-- Decrement a per-path ghost count. -/
def dropF (f : String → Nat) (p : String) : String → Nat :=
  fun q => if q = p then f q - 1 else f q

/-- One `PathLocker` single-slot operation, with its effect on the
ghost token counts. -/
inductive LockStep : GState → GState → Prop where
  | rlockOk (s : GState) (p : String) (t' : Table) :
      readLock p s.tab = .ok t' → LockStep s ⟨t', bumpF s.sh p, s.ex⟩
  | rlockBusy (s : GState) (p : String) (t' : Table) :
      readLock p s.tab = .busy t' → LockStep s ⟨t', s.sh, s.ex⟩
  | runlock (s : GState) (p : String) (t' : Table) (b : Bool) :
      1 ≤ s.sh p → readUnlock p s.tab = some (t', b) →
      LockStep s ⟨t', dropF s.sh p, s.ex⟩
  | wlockOk (s : GState) (p : String) (t' : Table) :
      writeLock p s.tab = .ok t' → LockStep s ⟨t', s.sh, bumpF s.ex p⟩
  | wlockBusy (s : GState) (p : String) (t' : Table) :
      writeLock p s.tab = .busy t' → LockStep s ⟨t', s.sh, s.ex⟩
  | wunlock (s : GState) (p : String) (t' : Table) :
      1 ≤ s.ex p → writeUnlock p s.tab = some t' →
      LockStep s ⟨t', s.sh, dropF s.ex p⟩
  | wdowngrade (s : GState) (p : String) (t' : Table) :
      1 ≤ s.ex p → writerDowngrade p s.tab = some t' →
      LockStep s ⟨t', bumpF s.sh p, dropF s.ex p⟩

/-- The freshly created `PathLocker`: empty table, no tokens. -/
def initGState : GState := ⟨emptyTable, fun _ => 0, fun _ => 0⟩

/-- States reachable by some sequence of `PathLocker` operations. -/
inductive ReachableLS : GState → Prop where
  | init : ReachableLS initGState
  | step {s s' : GState} : ReachableLS s → LockStep s s' → ReachableLS s'

/-- The coupling invariant between the table and the outstanding
tokens: a path with a writer has counter 0 and no readers, a path
with `n ≥ 1` readers has counter `n + 1` (and fits in a `uintptr`),
and a path with no tokens has no cell. -/
def TokInv (s : GState) : Prop :=
  ∀ p, s.ex p ≤ 1 ∧
    (s.ex p = 1 → s.sh p = 0 ∧ s.tab p = some 0) ∧
    (s.ex p = 0 →
      (s.sh p = 0 ∧ s.tab p = none) ∨
      (1 ≤ s.sh p ∧ s.sh p + 1 < uintptrMod ∧ s.tab p = some (s.sh p + 1)))

lemma tokInv_init : TokInv initGState := by
  intro p
  refine ⟨Nat.zero_le 1, ?_, ?_⟩
  · intro h
    simp [initGState] at h
  · intro _
    exact Or.inl ⟨rfl, rfl⟩

lemma bumpF_self (f : String → Nat) (p : String) : bumpF f p p = f p + 1 := by
  simp [bumpF]

lemma bumpF_other {q p : String} (h : q ≠ p) (f : String → Nat) :
    bumpF f p q = f q := by
  simp [bumpF, h]

lemma dropF_self (f : String → Nat) (p : String) : dropF f p p = f p - 1 := by
  simp [dropF]

lemma dropF_other {q p : String} (h : q ≠ p) (f : String → Nat) :
    dropF f p q = f q := by
  simp [dropF, h]

lemma tokInv_step {s s' : GState} (hI : TokInv s) (hs : LockStep s s') :
    TokInv s' := by
  cases hs with
  | rlockOk p t' hop =>
    rcases readLock_ok_inv hop with ⟨habs, rfl⟩ | ⟨c, hc, hc2, hov, rfl⟩
    · intro q
      rcases eq_or_ne q p with rfl | hq
      · obtain ⟨hle, hw, hz⟩ := hI q
        have hex0 : s.ex q = 0 := by
          by_contra hne
          have : s.ex q = 1 := by omega
          rcases hw this with ⟨_, htab⟩
          rw [habs] at htab
          cases htab
        refine ⟨by simpa using hle, ?_, ?_⟩
        · intro h1; simp only [hex0] at h1; cases h1
        · intro _
          right
          rcases hz hex0 with ⟨hsh, _⟩ | ⟨_, _, htab⟩
          · refine ⟨?_, ?_, ?_⟩ <;>
              simp [bumpF_self, tset_self, hsh]
            have := uintptrMod_big
            omega
          · rw [habs] at htab; cases htab
      · obtain ⟨hle, hw, hz⟩ := hI q
        simp only [bumpF_other hq, tset_other hq]
        exact ⟨hle, hw, hz⟩
    · intro q
      rcases eq_or_ne q p with rfl | hq
      · obtain ⟨hle, hw, hz⟩ := hI q
        have hex0 : s.ex q = 0 := by
          by_contra hne
          have : s.ex q = 1 := by omega
          rcases hw this with ⟨_, htab⟩
          rw [hc] at htab
          cases htab
          omega
        rcases hz hex0 with ⟨_, htab⟩ | ⟨hsh1, hshM, htab⟩
        · rw [hc] at htab; cases htab
        · rw [hc] at htab
          injection htab with htab
          have hcM : c < uintptrMod := by omega
          have hlt : c + 1 < uintptrMod := by
            rcases Nat.lt_or_ge (c + 1) uintptrMod with h' | h'
            · exact h'
            · exfalso
              have he : c + 1 = uintptrMod := by omega
              rw [he, Nat.mod_self] at hov
              exact hov rfl
          have ha : (c + 1) % uintptrMod = c + 1 := Nat.mod_eq_of_lt hlt
          refine ⟨by simpa using hle, ?_, ?_⟩
          · intro h1; simp only [hex0] at h1; cases h1
          · intro _
            right
            simp only [bumpF_self, tset_self, ha]
            exact ⟨by omega, by omega, by rw [htab]⟩
      · obtain ⟨hle, hw, hz⟩ := hI q
        simp only [bumpF_other hq, tset_other hq]
        exact ⟨hle, hw, hz⟩
  | rlockBusy p t' hop =>
    have : t' = s.tab := readLock_busy_inv hop
    subst this
    exact hI
  | runlock p t' b hsh hop =>
    obtain ⟨hle, hw, hz⟩ := hI p
    have hex0 : s.ex p = 0 := by
      by_contra hne
      have h1 : s.ex p = 1 := by omega
      rcases hw h1 with ⟨hsh0, _⟩
      omega
    rcases hz hex0 with ⟨hsh0, _⟩ | ⟨hsh1, hshM, htab⟩
    · omega
    · unfold readUnlock at hop
      rw [htab] at hop
      simp only [] at hop
      have hdec : (s.sh p + 1 + (uintptrMod - 1)) % uintptrMod = s.sh p := by
        have := decWrap_eq (a := s.sh p + 1) (by omega) hshM
        simpa using this
      rw [hdec] at hop
      by_cases hone : s.sh p = 1
      · rw [hone] at hop
        simp only [if_pos rfl] at hop
        cases hop
        intro q
        rcases eq_or_ne q p with rfl | hq
        · refine ⟨by simpa using hle, ?_, ?_⟩
          · intro h1; simp only [hex0] at h1; cases h1
          · intro _
            left
            simp [dropF_self, tdel_self, hone]
        · obtain ⟨hle', hw', hz'⟩ := hI q
          simp only [dropF_other hq, tdel_other hq]
          exact ⟨hle', hw', hz'⟩
      · simp only [if_neg hone] at hop
        cases hop
        intro q
        rcases eq_or_ne q p with rfl | hq
        · refine ⟨by simpa using hle, ?_, ?_⟩
          · intro h1; simp only [hex0] at h1; cases h1
          · intro _
            right
            simp only [dropF_self, tset_self]
            refine ⟨by omega, by omega, ?_⟩
            have he : s.sh q - 1 + 1 = s.sh q := by omega
            rw [he]
        · obtain ⟨hle', hw', hz'⟩ := hI q
          simp only [dropF_other hq, tset_other hq]
          exact ⟨hle', hw', hz'⟩
  | wlockOk p t' hop =>
    obtain ⟨habs, rfl⟩ := writeLock_ok_inv hop
    intro q
    rcases eq_or_ne q p with rfl | hq
    · obtain ⟨hle, hw, hz⟩ := hI q
      have hex0 : s.ex q = 0 := by
        by_contra hne
        have : s.ex q = 1 := by omega
        rcases hw this with ⟨_, htab⟩
        rw [habs] at htab
        cases htab
      have hsh0 : s.sh q = 0 := by
        rcases hz hex0 with ⟨h0, _⟩ | ⟨_, _, htab⟩
        · exact h0
        · rw [habs] at htab; cases htab
      refine ⟨by simp only [bumpF_self]; omega, ?_, ?_⟩
      · intro _
        exact ⟨hsh0, tset_self ..⟩
      · intro h0
        simp only [bumpF_self, hex0] at h0
        exact absurd h0 (by decide)
    · obtain ⟨hle, hw, hz⟩ := hI q
      simp only [bumpF_other hq, tset_other hq]
      exact ⟨hle, hw, hz⟩
  | wlockBusy p t' hop =>
    have : t' = s.tab := writeLock_busy_inv hop
    subst this
    exact hI
  | wunlock p t' hex hop =>
    obtain ⟨hle, hw, hz⟩ := hI p
    have hex1 : s.ex p = 1 := by omega
    obtain ⟨hsh0, htab⟩ := hw hex1
    unfold writeUnlock at hop
    rw [htab] at hop
    cases hop
    intro q
    rcases eq_or_ne q p with rfl | hq
    · refine ⟨by simp only [dropF_self]; omega, ?_, ?_⟩
      · intro h1
        simp only [dropF_self, hex1] at h1
        exact absurd h1 (by decide)
      · intro _
        left
        exact ⟨hsh0, tdel_self ..⟩
    · obtain ⟨hle', hw', hz'⟩ := hI q
      simp only [dropF_other hq, tdel_other hq]
      exact ⟨hle', hw', hz'⟩
  | wdowngrade p t' hex hop =>
    obtain ⟨hle, hw, hz⟩ := hI p
    have hex1 : s.ex p = 1 := by omega
    obtain ⟨hsh0, htab⟩ := hw hex1
    unfold writerDowngrade at hop
    rw [htab] at hop
    cases hop
    intro q
    rcases eq_or_ne q p with rfl | hq
    · refine ⟨by simp only [dropF_self]; omega, ?_, ?_⟩
      · intro h1
        simp only [dropF_self, hex1] at h1
        exact absurd h1 (by decide)
      · intro _
        right
        simp only [dropF_self, bumpF_self, tset_self, hsh0, hex1]
        have := uintptrMod_big
        exact ⟨by omega, by omega, trivial⟩
    · obtain ⟨hle', hw', hz'⟩ := hI q
      simp only [dropF_other hq, bumpF_other hq, tset_other hq]
      exact ⟨hle', hw', hz'⟩

/-- Every reachable state satisfies the coupling invariant. -/
lemma tokInv_reach {s : GState} (h : ReachableLS s) : TokInv s := by
  induction h with
  | init => exact tokInv_init
  | step _ hs ih => exact tokInv_step ih hs

/-- For every count below the counter capacity there is a reachable
state with that many outstanding shared tokens on a path. -/
lemma reach_shared (p : String) : ∀ n, n + 2 ≤ uintptrMod →
    ∃ s, ReachableLS s ∧ s.sh p = n ∧ s.ex p = 0 ∧
      s.tab p = (if n = 0 then none else some (n + 1)) := by
  intro n
  induction n with
  | zero => exact fun _ => ⟨initGState, .init, rfl, rfl, rfl⟩
  | succ m ih =>
    intro hm
    obtain ⟨s, hr, hsh, hex, htab⟩ := ih (by omega)
    by_cases hm0 : m = 0
    · subst hm0
      simp at htab
      have hop : readLock p s.tab = .ok (tset s.tab p 2) := by
        unfold readLock
        rw [htab]
      refine ⟨⟨tset s.tab p 2, bumpF s.sh p, s.ex⟩,
        .step hr (LockStep.rlockOk s p _ hop), ?_, ?_, ?_⟩
      · simp [bumpF_self, hsh]
      · exact hex
      · simp [tset_self]
    · have hm1 : 1 ≤ m := by omega
      simp only [if_neg hm0] at htab
      have hmod : (m + 1 + 1) % uintptrMod = m + 2 :=
        Nat.mod_eq_of_lt (by omega)
      have hop : readLock p s.tab = .ok (tset s.tab p (m + 2)) := by
        unfold readLock
        rw [htab]
        simp only []
        have h1 : ¬(m + 1 = 0) := by omega
        have h2 : ¬(m + 1 = 1) := by omega
        have h3 : ¬((m + 1 + 1) % uintptrMod = 0) := by rw [hmod]; omega
        rw [if_neg h1, if_neg h2, if_neg h3, hmod]
      refine ⟨⟨tset s.tab p (m + 2), bumpF s.sh p, s.ex⟩,
        .step hr (LockStep.rlockOk s p _ hop), ?_, ?_, ?_⟩
      · simp [bumpF_self, hsh]
      · exact hex
      · simp [tset_self]

/-! ### Claim theorems for the path locker -/

/-- C1 (amended): over any sequence of `PathLocker` operations, for
every path at most one Exclusive token is outstanding, an Exclusive
token and a Shared token are never outstanding simultaneously, and
every number of Shared tokens up to the counter capacity
`2 ^ 64 - 2` can coexist. -/
theorem c1_token_exclusion :
    (∀ s, ReachableLS s → ∀ p, s.ex p ≤ 1 ∧ (s.ex p = 0 ∨ s.sh p = 0)) ∧
    (∀ p n, n + 2 ≤ uintptrMod →
      ∃ s, ReachableLS s ∧ s.sh p = n ∧ s.ex p = 0) := by
  constructor
  · intro s hr p
    obtain ⟨hle, hw, _⟩ := tokInv_reach hr p
    refine ⟨hle, ?_⟩
    by_cases h : s.ex p = 0
    · exact Or.inl h
    · have h1 : s.ex p = 1 := by omega
      exact Or.inr (hw h1).1
  · intro p n hn
    obtain ⟨s, hr, hsh, hex, _⟩ := reach_shared p n hn
    exact ⟨s, hr, hsh, hex⟩

/-- C1 counterexample: the claim's "any number of Shared tokens may
coexist" fails at `2 ^ 64 - 1`, because the counter increment would
wrap and `readLock` refuses; no reachable state carries that many
shared tokens on a path. -/
theorem c1_shared_capacity_counterexample :
    (∃ s, ReachableLS s ∧ s.sh "/a" = uintptrMod - 1) = False := by
  apply eq_false
  rintro ⟨s, hr, hsh⟩
  obtain ⟨hle, hw, hz⟩ := tokInv_reach hr "/a"
  have hM := uintptrMod_big
  by_cases h : s.ex "/a" = 0
  · rcases hz h with ⟨h0, _⟩ | ⟨_, hlt, _⟩ <;> omega
  · have h1 : s.ex "/a" = 1 := by omega
    obtain ⟨h0, _⟩ := hw h1
    omega

/-- Witness for C1 at concrete reachable states. -/
theorem c1_witness :
    (initGState.ex "/a" ≤ 1 ∧ (initGState.ex "/a" = 0 ∨ initGState.sh "/a" = 0)) ∧
    ∃ s, ReachableLS s ∧ s.sh "/b" = 2 ∧ s.ex "/b" = 0 :=
  ⟨c1_token_exclusion.1 initGState .init "/a",
   c1_token_exclusion.2 "/b" 2 (by norm_num [uintptrMod])⟩

/-- The slot encoding of the specification: a cell holds 0
(Exclusive), at least 2 (Shared with count minus one readers), or 1
(Draining), and always fits in a `uintptr`. -/
def SlotEnc (t : Table) : Prop :=
  ∀ p c, t p = some c → (c = 0 ∨ 2 ≤ c ∨ c = 1) ∧ c < uintptrMod

lemma slotEnc_iff_fits (t : Table) : SlotEnc t ↔ TableFits t := by
  constructor
  · intro h p c hc
    exact (h p c hc).2
  · intro h p c hc
    exact ⟨by omega, h p c hc⟩

/-- C2: every `PathLocker` single-slot operation preserves the slot
encoding, and the last-reader decrement (stored value 2, decrement
result 1) deletes the cell and recycles it to the pool. -/
theorem c2_slot_encoding :
    (∀ p t t', SlotEnc t → readLock p t = .ok t' → SlotEnc t') ∧
    (∀ p t t', SlotEnc t → readLock p t = .busy t' → SlotEnc t') ∧
    (∀ p t t' b, SlotEnc t → readUnlock p t = some (t', b) → SlotEnc t') ∧
    (∀ p t t', SlotEnc t → writeLock p t = .ok t' → SlotEnc t') ∧
    (∀ p t t', SlotEnc t → writeLock p t = .busy t' → SlotEnc t') ∧
    (∀ p t t', SlotEnc t → writeUnlock p t = some t' → SlotEnc t') ∧
    (∀ p t t', SlotEnc t → writerDowngrade p t = some t' → SlotEnc t') ∧
    (∀ p t, t p = some 2 → readUnlock p t = some (tdel t p, true)) := by
  refine ⟨?_, ?_, ?_, ?_, ?_, ?_, ?_, ?_⟩
  · intro p t t' hE h
    rw [slotEnc_iff_fits] at hE ⊢
    exact fits_readLock hE h
  · intro p t t' hE h
    rw [readLock_busy_inv h]
    exact hE
  · intro p t t' b hE h
    rw [slotEnc_iff_fits] at hE ⊢
    exact fits_readUnlock hE h
  · intro p t t' hE h
    obtain ⟨_, rfl⟩ := writeLock_ok_inv h
    rw [slotEnc_iff_fits] at hE ⊢
    exact fits_tset hE uintptrMod_pos p
  · intro p t t' hE h
    rw [writeLock_busy_inv h]
    exact hE
  · intro p t t' hE h
    unfold writeUnlock at h
    cases ht : t p <;> rw [ht] at h
    · cases h
    · cases h
      rw [slotEnc_iff_fits] at hE ⊢
      exact fits_tdel hE p
  · intro p t t' hE h
    unfold writerDowngrade at h
    cases ht : t p <;> rw [ht] at h
    · cases h
    · cases h
      rw [slotEnc_iff_fits] at hE ⊢
      exact fits_tset hE uintptrMod_big p
  · intro p t h
    unfold readUnlock
    rw [h]
    have hdec : (2 + (uintptrMod - 1)) % uintptrMod = 1 := by
      have := decWrap_eq (a := 2) (by omega) uintptrMod_big
      simpa using this
    simp [hdec]

/-- Witness for C2: the last-reader transition on a concrete table. -/
theorem c2_witness :
    (tset emptyTable "/a" 2) "/a" = some 2 ∧
    readUnlock "/a" (tset emptyTable "/a" 2) =
      some (tdel (tset emptyTable "/a" 2) "/a", true) :=
  ⟨tset_self .., c2_slot_encoding.2.2.2.2.2.2.2 "/a" _ (tset_self ..)⟩

/-- C4: failure atomicity of hierarchical acquisition — when the
recursive read lock returns `false` or `writeLockCleanPath` returns
`nil`, the lock table is exactly what it was before the call. -/
theorem c4_failure_atomicity (fuel : Nat) (p : String) (t t' : Table)
    (hW : TableFits t) :
    (readLockRecursiveF fuel p t = some (false, t') → t' = t) ∧
    (writeLockCleanPathF fuel p t = some (none, t') → t' = t) :=
  ⟨fun h => rlrF_fail hW h, fun h => wlcpF_fail hW h⟩

/-- Witness for C4: a read chain on "/a/b" fails against a
write-locked "/a" and leaves the table untouched. -/
theorem c4_witness :
    readLockRecursiveF 3 "/a/b" (tset emptyTable "/a" 0) =
      some (false, tset emptyTable "/a" 0) ∧
    tset emptyTable "/a" 0 = tset emptyTable "/a" 0 :=
  ⟨rfl,
   (c4_failure_atomicity 3 "/a/b" (tset emptyTable "/a" 0)
     (tset emptyTable "/a" 0)
     (fits_tset fits_empty uintptrMod_pos "/a")).1 rfl⟩

/-- C5: single-slot exclusive acquisition — fresh path: insert a
counter-0 cell and succeed; cell holding 0 or at least 2: fail
without modifying the table; cell holding 1 (Draining): yield and
retry (spin) instead of failing. -/
theorem c5_exclusive_acquisition (p : String) (t : Table)
    (hnr : isRootPath p = false) :
    (t p = none → writeLock p t = .ok (tset t p 0)) ∧
    (∀ c, t p = some c → (c = 0 ∨ 2 ≤ c) → writeLock p t = .busy t) ∧
    (t p = some 1 → writeLock p t = .spin) := by
  refine ⟨?_, ?_, ?_⟩
  · intro h
    unfold writeLock
    rw [h]
  · intro c hc hd
    unfold writeLock
    rw [hc]
    have hor : c = 0 ∨ c > 1 := by omega
    simp [hor]
  · intro h
    unfold writeLock
    rw [h]
    simp

/-- Witness for C5 on concrete tables. -/
theorem c5_witness :
    writeLock "/a" emptyTable = .ok (tset emptyTable "/a" 0) ∧
    writeLock "/a" (tset emptyTable "/a" 5) = .busy (tset emptyTable "/a" 5) ∧
    writeLock "/a" (tset emptyTable "/a" 1) = .spin :=
  ⟨(c5_exclusive_acquisition "/a" emptyTable (by decide)).1 rfl,
   (c5_exclusive_acquisition "/a" (tset emptyTable "/a" 5) (by decide)).2.1
     5 (tset_self ..) (Or.inr (by omega)),
   (c5_exclusive_acquisition "/a" (tset emptyTable "/a" 1) (by decide)).2.2
     (tset_self ..)⟩

/-- C6: with the target path absent, exclusive acquisition then
downgrade then release restores the original table, exactly as
shared acquisition then release does; no entry for the path
remains. -/
theorem c6_downgrade_round_trip (f g : Nat) (p : String) (t : Table)
    (hW : TableFits t) (h0 : t (cleanSlashPath p) = none)
    (l1 l2 : Lok) (t1 t2 : Table)
    (hx : lockPathF f p t = some (some l1, t1))
    (hs : rlockPathF g p t = some (some l2, t2)) :
    ∃ ld td,
      downgradeLok l1 t1 = some (ld, td) ∧
      unlockLok (f + 1) ld td = some (⟨cleanSlashPath p, false, true⟩, t) ∧
      unlockLok g l2 t2 = some (⟨cleanSlashPath p, false, true⟩, t) ∧
      t (cleanSlashPath p) = none := by
  unfold lockPathF at hx
  unfold rlockPathF at hs
  obtain ⟨td, hdg, hun⟩ := downgrade_unlock_after_write hW hx
  exact ⟨⟨cleanSlashPath p, false, false⟩, td, hdg, hun,
    unlock_after_read hW hs, h0⟩

/-- Witness for C6 on the empty table and path "/a". -/
theorem c6_witness :
    ∃ ld td,
      downgradeLok ⟨"/a", true, false⟩ (tset emptyTable "/a" 0) =
        some (ld, td) ∧
      unlockLok 3 ld td = some (⟨"/a", false, true⟩, emptyTable) ∧
      unlockLok 2 ⟨"/a", false, false⟩ (tset emptyTable "/a" 2) =
        some (⟨"/a", false, true⟩, emptyTable) ∧
      emptyTable "/a" = none :=
  c6_downgrade_round_trip 2 2 "/a" emptyTable fits_empty rfl
    ⟨"/a", true, false⟩ ⟨"/a", false, false⟩
    (tset emptyTable "/a" 0) (tset emptyTable "/a" 2) rfl rfl

/-- C8: every spelling that normalizes to the root is rejected by
`LockPath` and accepted by `RLockPath` without touching the table. -/
theorem c8_root_immutability (p : String) (t : Table)
    (h : cleanSlashPath p = "/") :
    lockPath p t = some (none, t) ∧
    rlockPath p t = some (some ⟨"/", false, false⟩, t) := by
  unfold lockPath lockPathF rlockPath rlockPathF
  rw [h]
  exact ⟨rfl, rfl⟩

/-- Witness for C8: the spelling "." against a nonempty table. -/
theorem c8_witness :
    lockPath "." (tset emptyTable "/x" 0) =
      some (none, tset emptyTable "/x" 0) ∧
    rlockPath "." (tset emptyTable "/x" 0) =
      some (some ⟨"/", false, false⟩, tset emptyTable "/x" 0) :=
  c8_root_immutability "." (tset emptyTable "/x" 0) (by decide)

lemma unlockLok_freed {fuel : Nat} {l : Lok} {t : Table} {l' : Lok}
    {t' : Table} (h : unlockLok fuel l t = some (l', t')) :
    l'.freed = true := by
  unfold unlockLok at h
  by_cases hfr : l.freed = true
  · simp only [hfr, if_true] at h
    cases h
    exact hfr
  · simp only [hfr, if_false, Bool.false_eq_true] at h
    by_cases hw : l.write = true <;> simp only [hw, if_true, if_false, Bool.false_eq_true] at h
    · cases hwu : writeUnlock l.path t <;> rw [hwu] at h
      · cases h
      · simp only [] at h
        cases hru : readUnlockRecursiveF fuel (dirPath l.path) _ <;> rw [hru] at h
        · cases h
        · cases h
          rfl
    · cases hru : readUnlockRecursiveF fuel l.path t <;> rw [hru] at h
      · cases h
      · cases h
        rfl

/-- C9: release is idempotent — after a first `Unlock`, any further
`Unlock` of the same token returns the token and table unchanged. -/
theorem c9_idempotent_release (fuel fuel2 : Nat) (l : Lok) (t : Table)
    (l' : Lok) (t' : Table) (h : unlockLok fuel l t = some (l', t')) :
    unlockLok fuel2 l' t' = some (l', t') := by
  have hf := unlockLok_freed h
  unfold unlockLok
  simp [hf]

/-- Witness for C9: double release of a concrete shared token. -/
theorem c9_witness :
    unlockLok 7 ⟨"/a", false, true⟩ (tdel (tset emptyTable "/a" 2) "/a") =
      some (⟨"/a", false, true⟩, tdel (tset emptyTable "/a" 2) "/a") :=
  c9_idempotent_release 2 7 ⟨"/a", false, false⟩ (tset emptyTable "/a" 2)
    ⟨"/a", false, true⟩ (tdel (tset emptyTable "/a" 2) "/a") rfl

/-- The lock table while the shared chain from
`RLockPath("/a/b/c")` on a fresh locker is held. -/
def c3Table : Table :=
  match rlockPath "/a/b/c" emptyTable with
  | some (_, t) => t
  | none => emptyTable

/-- C3: with the shared chain on "/a/b/c" held, `LockPath` fails on
every spelling of "/a", "/a/b" and "/a/b/c", while
`LockPath("/a/b/c/d")` succeeds with a writer lock. -/
theorem c3_ancestor_protection (q : String)
    (hq : cleanSlashPath q = "/a" ∨ cleanSlashPath q = "/a/b" ∨
      cleanSlashPath q = "/a/b/c") :
    Option.map (fun r => (r.1.map Lok.path, r.1.map Lok.write))
        (rlockPath "/a/b/c" emptyTable) = some (some "/a/b/c", some false) ∧
    Option.map (fun r => r.1) (lockPath q c3Table) = some none ∧
    Option.map (fun r => (r.1.map Lok.path, r.1.map Lok.write))
        (lockPath "/a/b/c/d" c3Table) = some (some "/a/b/c/d", some true) := by
  refine ⟨by decide, ?_, by decide⟩
  unfold lockPath lockPathF
  rcases hq with h | h | h <;> rw [h] <;> decide

/-- Witness for C3 at the spelling "a/b". -/
theorem c3_witness :
    Option.map (fun r => (r.1.map Lok.path, r.1.map Lok.write))
        (rlockPath "/a/b/c" emptyTable) = some (some "/a/b/c", some false) ∧
    Option.map (fun r => r.1) (lockPath "a/b" c3Table) = some none ∧
    Option.map (fun r => (r.1.map Lok.path, r.1.map Lok.write))
        (lockPath "/a/b/c/d" c3Table) = some (some "/a/b/c/d", some true) :=
  c3_ancestor_protection "a/b" (Or.inr (Or.inl (by decide)))

/-! ### The gofs handle layer

Status codes, the handle table, and the operations of the `gofs`
`fileSystem` that the claims mention.  Backend (`fs.inner`) calls are
out of scope of the repository's locking logic; their outcomes enter
the models as oracle parameters.
-/

/-- The windows status codes distinguished by the modelled code paths;
other backend errors are carried opaquely. -/
inductive NTStatus where
  | ACCESS_DENIED
  | INVALID_HANDLE
  | SHARING_VIOLATION
  | OBJECT_NAME_COLLISION
  | backendErr (code : Nat)
deriving DecidableEq, Repr

/-- A `fileHandle` of the gofs package: its path lock token, its
backend file reference (abstract id, `none` after the file was
closed), and its open flags. -/
structure FSHandle where
  lok : Lok
  file : Option Nat
  flags : Nat
deriving DecidableEq, Repr

/-- The `fs.handles` map from handle id to handle. -/
abbrev Handles := Nat → Option FSHandle

/-- Register a handle under an id. -/
def hset (hs : Handles) (k : Nat) (h : FSHandle) : Handles :=
  fun j => if j = k then some h else hs j

/-- Remove a handle id. -/
def hdel (hs : Handles) (k : Nat) : Handles :=
  fun j => if j = k then none else hs j

/-- The empty handle table. -/
def handlesEmpty : Handles := fun _ => none

/-- Go `os.O_APPEND` on windows. -/
def oAppendFlag : Nat := 1024

/-- `winfsp.FspCleanupDelete`. -/
def fspCleanupDelete : Nat := 1

/-- Model of `fileHandle.lockChecked`: the per-handle guard that
fails with `STATUS_INVALID_HANDLE` when the backend file reference
is gone. -/
def lockChecked (h : FSHandle) : Option NTStatus :=
  if h.file = none then some .INVALID_HANDLE else none

/-- Model of `fileSystem.Read`: load the handle, run the guard, then
the backend read (an oracle here). -/
def readOp (hs : Handles) (k : Nat) (ioRes : Except NTStatus Nat) :
    Except NTStatus Nat :=
  match hs k with
  | none => .error .INVALID_HANDLE
  | some h =>
    match lockChecked h with
    | some e => .error e
    | none => ioRes

/-- Model of `fileSystem.Write`: the append-only check precedes the
per-handle guard; the backend write is an oracle. -/
def writeOp (hs : Handles) (k : Nat) (writeToEnd constrainedIo : Bool)
    (ioRes : Except NTStatus Nat) : Except NTStatus Nat :=
  match hs k with
  | none => .error .INVALID_HANDLE
  | some h =>
    if (h.flags &&& oAppendFlag != 0) && !writeToEnd then
      .error .ACCESS_DENIED
    else
      match lockChecked h with
      | some e => .error e
      | none => ioRes

/-- Model of `fileSystem.GetFileInfo`: load, guard, backend stat. -/
def getFileInfoOp (hs : Handles) (k : Nat) (ioRes : Except NTStatus Unit) :
    Except NTStatus Unit :=
  match hs k with
  | none => .error .INVALID_HANDLE
  | some h =>
    match lockChecked h with
    | some e => .error e
    | none => ioRes

/-- Model of `fileSystem.Flush`: id 0 flushes the whole filesystem
and returns success; otherwise load, guard, backend sync. -/
def flushOp (hs : Handles) (k : Nat) (ioRes : Except NTStatus Unit) :
    Except NTStatus Unit :=
  if k = 0 then .ok ()
  else
    match hs k with
    | none => .error .INVALID_HANDLE
    | some h =>
      match lockChecked h with
      | some e => .error e
      | none => ioRes

/-- Model of `fileSystem.Overwrite`: load, guard, backend truncate
and stat. -/
def overwriteOp (hs : Handles) (k : Nat) (ioRes : Except NTStatus Unit) :
    Except NTStatus Unit :=
  match hs k with
  | none => .error .INVALID_HANDLE
  | some h =>
    match lockChecked h with
    | some e => .error e
    | none => ioRes

/-- Model of `fileSystem.ReadDirectory`: load, guard, backend
reopen and readdir. -/
def readDirOp (hs : Handles) (k : Nat) (ioRes : Except NTStatus Unit) :
    Except NTStatus Unit :=
  match hs k with
  | none => .error .INVALID_HANDLE
  | some h =>
    match lockChecked h with
    | some e => .error e
    | none => ioRes

/-- Model of `fileSystem.Cleanup`: with the delete flag, on a
write-locked handle whose file is open, close the backend file and
clear the reference (then invoke backend `Remove`, whose result is
ignored); otherwise a no-op. -/
def cleanupOp (hs : Handles) (k : Nat) (cleanupFlags : Nat) : Handles :=
  match hs k with
  | none => hs
  | some h =>
    if cleanupFlags &&& fspCleanupDelete = 0 then hs
    else if h.lok.write = false then hs
    else if h.file = none then hs
    else hset hs k ⟨h.lok, none, h.flags⟩

/-- Model of `fileSystem.Close`: remove the id and release the
handle's lock token (the backend file, if still open, is closed). -/
def closeOp (fuel : Nat) (hs : Handles) (k : Nat) (t : Table) :
    Option (Handles × Table) :=
  match hs k with
  | none => some (hs, t)
  | some h =>
    match unlockLok fuel h.lok t with
    | none => none
    | some (_, t') => some (hdel hs k, t')

/-- Outcome of the backend `Stat` on the rename target, as the code
distinguishes it: a real error, not-found, or an existing file. -/
inductive TStatRes where
  | realErr (e : NTStatus)
  | notFound
  | found
deriving DecidableEq, Repr

/-- Outcome of `handle.file.Stat()` during rename. -/
inductive SelfStatRes where
  | err (e : NTStatus)
  | info (regular : Bool)
deriving DecidableEq, Repr

/-- Backend outcomes consulted by `fileSystem.Rename`. -/
structure RenameOracle where
  statTarget : TStatRes
  statSelf : SelfStatRes
  seekRes : Option NTStatus
  renameRes : Option NTStatus
  reopenRes : Option Nat
  seekBack : Bool
deriving DecidableEq, Repr

/-- Observable result of a rename: status, final handle, final lock
table, final state of the source token, and of the target token when
one was acquired. -/
structure RenRes where
  status : Option NTStatus
  handle : FSHandle
  tab : Table
  src : Lok
  tgt : Option Lok

/-- The deferred reopen of the remaining file after rename: reopen,
and for a regular file also seek back; on any failure the handle's
file reference stays `none`. -/
def renameReopen (o : RenameOracle) (regular : Bool) : Option Nat :=
  match o.reopenRes with
  | none => none
  | some f => if regular && !o.seekBack then none else some f

/-- Tail of `fileSystem.Rename` after the target write chain has been
acquired: collision check, self stat and seek, backend rename; every
failure exit releases the target lock (the deferred
`newLock.Unlock()`), the success exit swaps the handle's token to the
target and releases the old source lock. -/
def renameLocked (fuel : Nat) (h : FSHandle) (t1 : Table) (nl : Lok)
    (replaceIfExist : Bool) (o : RenameOracle) : Option RenRes :=
  match (if replaceIfExist then TStatRes.notFound else o.statTarget) with
  | .realErr e =>
    match unlockLok fuel nl t1 with
    | none => none
    | some (nl2, t2) => some ⟨some e, h, t2, h.lok, some nl2⟩
  | .found =>
    match unlockLok fuel nl t1 with
    | none => none
    | some (nl2, t2) =>
      some ⟨some .OBJECT_NAME_COLLISION, h, t2, h.lok, some nl2⟩
  | .notFound =>
    match o.statSelf with
    | .err e =>
      match unlockLok fuel nl t1 with
      | none => none
      | some (nl2, t2) => some ⟨some e, h, t2, h.lok, some nl2⟩
    | .info regular =>
      match (if regular then o.seekRes else none) with
      | some e =>
        match unlockLok fuel nl t1 with
        | none => none
        | some (nl2, t2) => some ⟨some e, h, t2, h.lok, some nl2⟩
      | none =>
        match o.renameRes with
        | some e =>
          match unlockLok fuel nl t1 with
          | none => none
          | some (nl2, t2) =>
            some ⟨some e, ⟨h.lok, renameReopen o regular, h.flags⟩,
              t2, h.lok, some nl2⟩
        | none =>
          match unlockLok fuel h.lok t1 with
          | none => none
          | some (sl2, t2) =>
            some ⟨none, ⟨nl, renameReopen o regular, h.flags⟩,
              t2, sl2, some nl⟩

/-- Model of `fileSystem.Rename` for a loaded handle: require a
writer token, a live file reference, acquire the target write chain,
then `renameLocked`. -/
def renameOp (fuel : Nat) (h : FSHandle) (t : Table) (target : String)
    (replaceIfExist : Bool) (o : RenameOracle) : Option RenRes :=
  if h.lok.write = false then some ⟨some .ACCESS_DENIED, h, t, h.lok, none⟩
  else if h.file = none then some ⟨some .INVALID_HANDLE, h, t, h.lok, none⟩
  else
    match lockFileF fuel target t with
    | none => none
    | some (none, t1) => some ⟨some .SHARING_VIOLATION, h, t1, h.lok, none⟩
    | some (some nl, t1) => renameLocked fuel h t1 nl replaceIfExist o

/-- After the target chain is acquired, every exit of the rename tail
leaves exactly one of the two locks held: success swaps the handle to
the (unfreed) target token and frees the source token; every failure
keeps the handle on the source token and frees the target token. -/
lemma renameLocked_exchange {fuel : Nat} {h : FSHandle} {t1 : Table}
    {nl : Lok} {rep : Bool} {o : RenameOracle} :
    ∀ r, renameLocked fuel h t1 nl rep o = some r →
      (r.status = none ∧ r.handle.lok = nl ∧ r.tgt = some nl ∧
        r.src.freed = true) ∨
      (∃ e, r.status = some e ∧ r.handle.lok = h.lok ∧ r.src = h.lok ∧
        ∃ tg, r.tgt = some tg ∧ tg.freed = true) := by
  intro r hr
  unfold renameLocked at hr
  cases hst : (if rep then TStatRes.notFound else o.statTarget) with
  | realErr e =>
    rw [hst] at hr
    simp only [] at hr
    cases hu : unlockLok fuel nl t1 with
    | none => rw [hu] at hr; cases hr
    | some pr =>
      obtain ⟨nl2, t2⟩ := pr
      rw [hu] at hr
      cases hr
      exact Or.inr ⟨e, rfl, rfl, rfl, nl2, rfl, unlockLok_freed hu⟩
  | found =>
    rw [hst] at hr
    simp only [] at hr
    cases hu : unlockLok fuel nl t1 with
    | none => rw [hu] at hr; cases hr
    | some pr =>
      obtain ⟨nl2, t2⟩ := pr
      rw [hu] at hr
      cases hr
      exact Or.inr ⟨.OBJECT_NAME_COLLISION, rfl, rfl, rfl, nl2, rfl,
        unlockLok_freed hu⟩
  | notFound =>
    rw [hst] at hr
    simp only [] at hr
    cases hss : o.statSelf with
    | err e =>
      rw [hss] at hr
      simp only [] at hr
      cases hu : unlockLok fuel nl t1 with
      | none => rw [hu] at hr; cases hr
      | some pr =>
        obtain ⟨nl2, t2⟩ := pr
        rw [hu] at hr
        cases hr
        exact Or.inr ⟨e, rfl, rfl, rfl, nl2, rfl, unlockLok_freed hu⟩
    | info regular =>
      rw [hss] at hr
      simp only [] at hr
      cases hsk : (if regular then o.seekRes else none) with
      | some e =>
        rw [hsk] at hr
        simp only [] at hr
        cases hu : unlockLok fuel nl t1 with
        | none => rw [hu] at hr; cases hr
        | some pr =>
          obtain ⟨nl2, t2⟩ := pr
          rw [hu] at hr
          cases hr
          exact Or.inr ⟨e, rfl, rfl, rfl, nl2, rfl, unlockLok_freed hu⟩
      | none =>
        rw [hsk] at hr
        simp only [] at hr
        cases hrn : o.renameRes with
        | some e =>
          rw [hrn] at hr
          simp only [] at hr
          cases hu : unlockLok fuel nl t1 with
          | none => rw [hu] at hr; cases hr
          | some pr =>
            obtain ⟨nl2, t2⟩ := pr
            rw [hu] at hr
            cases hr
            exact Or.inr ⟨e, rfl, rfl, rfl, nl2, rfl, unlockLok_freed hu⟩
        | none =>
          rw [hrn] at hr
          simp only [] at hr
          cases hu : unlockLok fuel h.lok t1 with
          | none => rw [hu] at hr; cases hr
          | some pr =>
            obtain ⟨sl2, t2⟩ := pr
            rw [hu] at hr
            cases hr
            exact Or.inl ⟨rfl, rfl, rfl, unlockLok_freed hu⟩

/-- C7: rename on a non-exclusive handle fails with
`STATUS_ACCESS_DENIED` changing nothing; a failed target-chain
acquisition yields `STATUS_SHARING_VIOLATION` with the table and the
source lock untouched; once the target chain is acquired, exactly one
of the source and target locks is held on every exit — the target
released and source preserved on failure, the handle swapped to the
target and the source released on success. -/
theorem c7_rename_lock_exchange (fuel : Nat) (h : FSHandle) (t : Table)
    (target : String) (rep : Bool) (o : RenameOracle) :
    (h.lok.write = false →
      renameOp fuel h t target rep o =
        some ⟨some .ACCESS_DENIED, h, t, h.lok, none⟩) ∧
    (∀ fd t1, h.lok.write = true → h.file = some fd → TableFits t →
      lockFileF fuel target t = some (none, t1) →
      renameOp fuel h t target rep o =
        some ⟨some .SHARING_VIOLATION, h, t, h.lok, none⟩) ∧
    (∀ fd nl t1, h.lok.write = true → h.file = some fd →
      lockFileF fuel target t = some (some nl, t1) →
      nl = ⟨cleanFilePath target, true, false⟩ ∧
      ∀ r, renameOp fuel h t target rep o = some r →
        (r.status = none ∧ r.handle.lok = nl ∧ r.tgt = some nl ∧
          r.src.freed = true) ∨
        (∃ e, r.status = some e ∧ r.handle.lok = h.lok ∧ r.src = h.lok ∧
          ∃ tg, r.tgt = some tg ∧ tg.freed = true)) := by
  refine ⟨?_, ?_, ?_⟩
  · intro hw
    unfold renameOp
    rw [hw]
    simp
  · intro fd t1 hw hf hWt hacq
    have ht1 : t1 = t := wlcpF_fail hWt hacq
    subst ht1
    unfold renameOp
    rw [hw, hf]
    simp only [Bool.true_eq_false, if_false, reduceCtorEq, hacq]
  · intro fd nl t1 hw hf hacq
    obtain ⟨hnl, _⟩ := wlcpF_ok_inv hacq
    refine ⟨hnl, ?_⟩
    intro r hr
    unfold renameOp at hr
    rw [hw, hf] at hr
    simp only [Bool.true_eq_false, if_false, reduceCtorEq, hacq] at hr
    exact renameLocked_exchange r hr

/-- Witness for C7: the specification scenario — rename from a
write-locked "/src" to a "/dst" that is read-locked elsewhere fails
with a sharing violation and leaves the table and source lock
unchanged. -/
theorem c7_witness :
    renameOp 3 ⟨⟨"/src", true, false⟩, some 1, 0⟩
        (tset (tset emptyTable "/src" 0) "/dst" 2) "/dst" false
        ⟨.notFound, .info true, none, none, some 1, true⟩ =
      some ⟨some .SHARING_VIOLATION, ⟨⟨"/src", true, false⟩, some 1, 0⟩,
        tset (tset emptyTable "/src" 0) "/dst" 2,
        ⟨"/src", true, false⟩, none⟩ :=
  (c7_rename_lock_exchange 3 ⟨⟨"/src", true, false⟩, some 1, 0⟩
      (tset (tset emptyTable "/src" 0) "/dst" 2) "/dst" false
      ⟨.notFound, .info true, none, none, some 1, true⟩).2.1 1
    (tset (tset emptyTable "/src" 0) "/dst" 2) rfl rfl
    (fits_tset (fits_tset fits_empty uintptrMod_pos "/src")
      uintptrMod_big "/dst")
    rfl

lemma hset_self (hs : Handles) (k : Nat) (h : FSHandle) :
    hset hs k h k = some h := by
  simp [hset]

/-- C10 counterexample: after a delete-flag cleanup on a write-locked
append-only handle, a `Write` with `writeToEndOfFile = false` returns
`STATUS_ACCESS_DENIED` — the append-only check precedes the handle
guard — not `STATUS_INVALID_HANDLE` as the claim states. -/
def c10Handles : Handles :=
  hset handlesEmpty 7 ⟨⟨"/a", true, false⟩, some 5, 1024⟩

theorem c10_write_append_counterexample :
    writeOp (cleanupOp c10Handles 7 1) 7 false false (.ok 0) =
      .error .ACCESS_DENIED ∧
    NTStatus.ACCESS_DENIED ≠ NTStatus.INVALID_HANDLE :=
  ⟨rfl, by decide⟩

/-- C10 (amended): after a delete-flag cleanup on a write-locked
handle with an open file, the id stays registered with a `none` file
reference; Read, GetFileInfo, Flush, Overwrite and ReadDirectory
return `STATUS_INVALID_HANDLE`, Write does too except that a
non-end-of-file write on an append-only handle fails earlier with
`STATUS_ACCESS_DENIED`; a later Close still removes the id and
releases the path lock. -/
theorem c10_cleanup_invalidates (hs : Handles) (k : Nat) (h : FSHandle)
    (fd : Nat) (flags : Nat)
    (hk : hs k = some h) (hw : h.lok.write = true) (hf : h.file = some fd)
    (hfl : ¬(flags &&& fspCleanupDelete = 0)) :
    cleanupOp hs k flags k = some ⟨h.lok, none, h.flags⟩ ∧
    (∀ io, readOp (cleanupOp hs k flags) k io = .error .INVALID_HANDLE) ∧
    (∀ wte cio io, writeOp (cleanupOp hs k flags) k wte cio io =
      if (h.flags &&& oAppendFlag != 0) && !wte then .error .ACCESS_DENIED
      else .error .INVALID_HANDLE) ∧
    (∀ io, getFileInfoOp (cleanupOp hs k flags) k io =
      .error .INVALID_HANDLE) ∧
    (∀ io, k ≠ 0 → flushOp (cleanupOp hs k flags) k io =
      .error .INVALID_HANDLE) ∧
    (∀ io, overwriteOp (cleanupOp hs k flags) k io =
      .error .INVALID_HANDLE) ∧
    (∀ io, readDirOp (cleanupOp hs k flags) k io =
      .error .INVALID_HANDLE) ∧
    (∀ fuel t l' t', unlockLok fuel h.lok t = some (l', t') →
      closeOp fuel (cleanupOp hs k flags) k t =
        some (hdel (cleanupOp hs k flags) k, t')) := by
  have hcl : cleanupOp hs k flags k = some ⟨h.lok, none, h.flags⟩ := by
    unfold cleanupOp
    rw [hk]
    simp only []
    rw [if_neg hfl]
    rw [if_neg (by simp [hw] : ¬(h.lok.write = false))]
    rw [if_neg (by simp [hf] : ¬(h.file = none))]
    exact hset_self ..
  refine ⟨hcl, ?_, ?_, ?_, ?_, ?_, ?_, ?_⟩
  · intro io
    unfold readOp
    rw [hcl]
    simp [lockChecked]
  · intro wte cio io
    unfold writeOp
    rw [hcl]
    by_cases hc : ((h.flags &&& oAppendFlag != 0) && !wte) = true
    · simp [hc]
    · simp [hc, lockChecked]
  · intro io
    unfold getFileInfoOp
    rw [hcl]
    simp [lockChecked]
  · intro io hk0
    unfold flushOp
    rw [if_neg hk0, hcl]
    simp [lockChecked]
  · intro io
    unfold overwriteOp
    rw [hcl]
    simp [lockChecked]
  · intro io
    unfold readDirOp
    rw [hcl]
    simp [lockChecked]
  · intro fuel t l' t' hu
    unfold closeOp
    rw [hcl]
    simp only []
    rw [hu]

/-- Witness for C10 on a concrete cleaned-up handle. -/
theorem c10_witness :
    cleanupOp c10Handles 7 1 7 = some ⟨⟨"/a", true, false⟩, none, 1024⟩ ∧
    readOp (cleanupOp c10Handles 7 1) 7 (.ok 3) = .error .INVALID_HANDLE ∧
    writeOp (cleanupOp c10Handles 7 1) 7 true false (.ok 0) =
      .error .INVALID_HANDLE ∧
    closeOp 2 (cleanupOp c10Handles 7 1) 7 (tset emptyTable "/a" 0) =
      some (hdel (cleanupOp c10Handles 7 1) 7,
        tdel (tset emptyTable "/a" 0) "/a") :=
  ⟨(c10_cleanup_invalidates c10Handles 7 ⟨⟨"/a", true, false⟩, some 5, 1024⟩
      5 1 rfl rfl rfl (by decide)).1,
   (c10_cleanup_invalidates c10Handles 7 ⟨⟨"/a", true, false⟩, some 5, 1024⟩
      5 1 rfl rfl rfl (by decide)).2.1 (.ok 3),
   (c10_cleanup_invalidates c10Handles 7 ⟨⟨"/a", true, false⟩, some 5, 1024⟩
      5 1 rfl rfl rfl (by decide)).2.2.1 true false (.ok 0),
   (c10_cleanup_invalidates c10Handles 7 ⟨⟨"/a", true, false⟩, some 5, 1024⟩
      5 1 rfl rfl rfl (by decide)).2.2.2.2.2.2.2 2 (tset emptyTable "/a" 0)
      ⟨"/a", true, true⟩ (tdel (tset emptyTable "/a" 0) "/a") rfl⟩
